import Mathlib

/-!
Verification of `.github/scripts/sync_pricing_to_general.py`.

The script reconciles a "pricing" JSON file with one or more "general" JSON
files: every model key present in pricing but missing from a general file gets
a fixed stub entry spliced, as raw text, immediately before the general file's
root closing brace.

The embedding has three layers, all executable:
* a text layer over `List Char` mirroring the raw-string manipulation
  (indent detection, stub rendering, the backward scan for the root closing
  brace, and the splice of lines 85-96);
* a document layer over association lists `List (String × Json)` mirroring the
  key-set computation of lines 49 and 58-60 on the parsed documents;
* a process layer mirroring `main` (argument handling, exit codes, the loop
  over target paths), with the filesystem as a function from paths to optional
  contents and `json.loads` as an abstract fallible parser.

Line numbers in doc comments refer to `sync_pricing_to_general.py`.
-/

namespace SyncPricing

/-- JSON values as parsed by Python's `json` module, with objects as key-value
lists in document order (Python dicts preserve insertion order). Numbers are
integers here: the only number this development ever renders is `64000` from
`MINIMAL_STUB`. -/
inductive Json where
  | str : String → Json
  | num : Int → Json
  | arr : List Json → Json
  | obj : List (String × Json) → Json

/-- Line 16: keys that exist in both pricing and general but must never be
synced or overwritten. -/
def GENERAL_RESERVED : List String := ["name", "description", "default"]

/-- Lines 18-22: the fixed stub object inserted for every missing model. -/
def MINIMAL_STUB : Json :=
  .obj [("params", .arr [.obj [("key", .str "max_tokens"), ("maxValue", .num 64000)]]),
        ("type", .obj [("primary", .str "chat"),
                       ("supported", .arr [.str "image", .str "pdf", .str "doc", .str "tools"])]),
        ("removeParams", .arr [.str "top_p"])]

/-- Indentation produced by `json.dumps(·, indent=2)` at nesting depth `d`:
`2 * d` spaces. -/
def jsonInd (d : Nat) : String := String.mk (List.replicate (2 * d) ' ')

/-- Models Python's `json.dumps(v, indent=2)` (default separators, so items are
joined by ",\n" and keys rendered as `"key": value`). The strings occurring in
`MINIMAL_STUB` — the only value the script ever dumps — contain no characters
that json would escape, so string rendering is plain quoting. The `fuel`
argument only makes the recursion through nested lists structural; `dumps`
below always supplies fuel exceeding the nesting depth. -/
def dumpsF : Nat → Json → Nat → String
  | 0, _, _ => ""
  | _ + 1, .str s, _ => "\"" ++ s ++ "\""
  | _ + 1, .num n, _ => toString n
  | _ + 1, .arr [], _ => "[]"
  | fuel + 1, .arr (x :: xs), d =>
    "[\n" ++ String.intercalate ",\n"
        ((x :: xs).map (fun y => jsonInd (d + 1) ++ dumpsF fuel y (d + 1))) ++
      "\n" ++ jsonInd d ++ "]"
  | _ + 1, .obj [], _ => "\x7b\x7d"
  | fuel + 1, .obj (m :: ms), d =>
    "\x7b\n" ++ String.intercalate ",\n"
        ((m :: ms).map (fun y =>
          jsonInd (d + 1) ++ "\"" ++ y.1 ++ "\": " ++ dumpsF fuel y.2 (d + 1))) ++
      "\n" ++ jsonInd d ++ "\x7d"

/-- Renders `json.dumps(v, indent=2)` at depth `d`. The script only ever dumps
`MINIMAL_STUB`, whose nesting depth is 4, so a fuel of 32 never runs out. -/
def dumps (v : Json) (d : Nat) : String := dumpsF 32 v d

/-- The whitespace set of the backward scan on line 86: `" \t\n\r"`. -/
def trailWS (c : Char) : Bool := c = ' ' || c = '\t' || c = '\n' || c = '\r'

/-- Python `str.lstrip()` whitespace (the ASCII cases; the lines this is
applied to contain no newline, and the script's files are ASCII JSON). -/
def pyWS (c : Char) : Bool :=
  c = ' ' || c = '\t' || c = '\n' || c = '\r' || c = '\x0b' || c = '\x0c'

/-- Accumulator pass for `splitlines`: emits the current (reversed) line at
each line break, and at the end of input emits the final partial line unless it
is empty — so a trailing line break produces no trailing empty line, exactly
like Python's `str.splitlines()`. -/
def splitlinesAux (acc : List Char) : List Char → List (List Char)
  | [] => if acc.isEmpty then [] else [acc.reverse]
  | '\r' :: '\n' :: rest => acc.reverse :: splitlinesAux [] rest
  | '\r' :: rest => acc.reverse :: splitlinesAux [] rest
  | '\n' :: rest => acc.reverse :: splitlinesAux [] rest
  | c :: rest => splitlinesAux (c :: acc) rest

/-- Python `str.splitlines()` restricted to the line breaks `"\n"`, `"\r"`,
`"\r\n"` (the module's files are ordinary text; the exotic Unicode breaks that
Python also handles cannot occur in JSON written by this tool chain). -/
def splitlines (s : List Char) : List (List Char) := splitlinesAux [] s

/-- The loop guard of lines 68-70: the line, after `lstrip()`, starts with a
double quote and contains a colon. -/
def quotedKeyLine (line : List Char) : Bool :=
  (line.dropWhile pyWS).head? == some '"' && (line.dropWhile pyWS).contains ':'

/-- Lines 66-72: the indent is initialised to two spaces and replaced by
`line[: line.index('"')]` for the first line satisfying `quotedKeyLine`; the
`for`/`break` loop is the first match. Since the stripped line starts with the
first `"` of the line, `line.index('"')` cuts exactly the characters before
that first quote, i.e. `takeWhile (· ≠ '"')`. -/
def detectIndent (content : List Char) : List Char :=
  match (splitlines content).find? quotedKeyLine with
  | some line => line.takeWhile (fun c => c ≠ '"')
  | none => [' ', ' ']

/-- Lines 75-76: `json.dumps(MINIMAL_STUB, indent=2).splitlines()`. -/
def stub_lines : List (List Char) := (splitlines (dumps MINIMAL_STUB 0).data)

/-- Lines 79-81: one new entry — `f'{indent}"{model_id}": {{\n{inner}'` where
`inner` joins the stub lines after the first, each prefixed by the indent. -/
def entryFor (indent : List Char) (model_id : String) : List Char :=
  indent ++ ('"' :: model_id.data) ++ ('"' :: ':' :: ' ' :: '\x7b' :: '\n' ::
    List.intercalate ['\n'] ((stub_lines.drop 1).map (fun l => indent ++ l)))

/-- Line 82: the new entry blocks joined by `",\n"`. -/
def newEntriesStr (indent : List Char) (missing : List String) : List Char :=
  List.intercalate [',', '\n'] (missing.map (entryFor indent))

/-- Result of the raw-text splice attempt of lines 85-96. -/
inductive SpliceOutcome where
  | warnNoBrace
  | warnBadFormat
  | written (c : List Char)
deriving DecidableEq

/-- Lines 85-96, rendered functionally. The backward `while` loop of lines
86-87 lands on `root_close`, the index of the last character not in `" \t\n\r"`;
dropping the trailing whitespace run from the reversed content computes the
same index as `stripped.length - 1`. Line 88 skips unless that character is a
closing brace, lines 92-95 skip unless `insert_at = root_close - 1` is in range
(`root_close > 0`) and holds a newline, and line 96 splices
`content[:insert_at] + ",\n" + new_entries_str + "\n" + content[insert_at:]`. -/
def spliceStep (content : List Char) (entries : List Char) : SpliceOutcome :=
  let stripped := content.reverse.dropWhile trailWS
  if stripped.head? = some '\x7d' then
    let rootClose := stripped.length - 1
    if rootClose = 0 then .warnBadFormat
    else if content[rootClose - 1]? = some '\n' then
      .written (content.take (rootClose - 1) ++ ([',', '\n'] ++ entries ++ ['\n']) ++
        content.drop (rootClose - 1))
    else .warnBadFormat
  else .warnNoBrace

/-- Keys of a parsed JSON object in document order (`doc.keys()`). -/
def modelKeys (doc : List (String × Json)) : List String := doc.map Prod.fst

/-- Line 58: `set(k for k in general.keys() if k not in GENERAL_RESERVED)`. -/
def generalModels (general : List (String × Json)) : List String :=
  (modelKeys general).filter (fun k => decide (k ∉ GENERAL_RESERVED))

/-- Line 60: `sorted(pricing_models - general_models - GENERAL_RESERVED)`.
Set difference is a membership filter; `dedup` reflects that the operands are
sets; Python's `sorted` on strings is ascending lexicographic comparison of
code points, which is exactly `(· ≤ ·)` of `String`'s linear order. -/
def missingModels (pricingModels : List String) (genModels : List String) : List String :=
  List.insertionSort (fun a b => a ≤ b)
    ((pricingModels.filter
      (fun k => decide (k ∉ genModels) && decide (k ∉ GENERAL_RESERVED))).dedup)

/-- Outcome of one iteration of the loop of lines 51-102 for a target general
file that exists, with `content` its raw text and `general` its parse. -/
inductive TargetResult where
  | noMissing
  | warnNoBrace
  | warnBadFormat
  | written (newContent : List Char)
deriving DecidableEq

/-- Lines 56-98 for one existing target: compute `missing` (lines 58-60); if
empty, report and do not write (lines 62-64); otherwise detect the indent
(lines 66-72), render the new entries (lines 74-82) and attempt the splice
(lines 85-96); a successful splice rewrites the file (line 98). -/
def processTarget (content : List Char) (general : List (String × Json))
    (pricingModels : List String) : TargetResult :=
  let missing := missingModels pricingModels (generalModels general)
  if missing = [] then .noMissing
  else
    match spliceStep content (newEntriesStr (detectIndent content) missing) with
    | .warnNoBrace => .warnNoBrace
    | .warnBadFormat => .warnBadFormat
    | .written c => .written c

/-- The target was skipped with a `::warning` (lines 89, 94). -/
def isWarnSkip : TargetResult → Bool
  | .warnNoBrace => true
  | .warnBadFormat => true
  | _ => false

/-- The target file was rewritten (line 98). -/
def isWritten : TargetResult → Bool
  | .written _ => true
  | _ => false

/-- The text passed to `write_text` on line 98 (empty for non-writing outcomes). -/
def writtenOf : TargetResult → List Char
  | .written c => c
  | _ => []

/-- Models a necessary condition for Python's `json.loads` to accept a text as
a JSON object: the first non-whitespace character is an opening brace, and the
next non-whitespace character after it is either a double quote (the first
member's key) or a closing brace (the empty object). `json.loads` accepts no
other continuation at that position, so any text failing this check raises
`JSONDecodeError` and has no top-level key set. JSON's whitespace is the same
four characters `" \t\n\r"` as `trailWS`. -/
def jsonObjShapeOk (content : List Char) : Bool :=
  match content.dropWhile trailWS with
  | '\x7b' :: rest =>
    match rest.dropWhile trailWS with
    | '"' :: _ => true
    | '\x7d' :: _ => true
    | _ => false
  | _ => false

/-- Index of the last occurrence of a dot, as in Python's `name.rfind('.')`
(`none` standing for Python's `-1`). -/
def rfindDotAux : List Char → Nat → Option Nat → Option Nat
  | [], _, acc => acc
  | c :: rest, i, acc => rfindDotAux rest (i + 1) (if c = '.' then some i else acc)

/-- Python `s.rfind('.')` with `none` for "not found". -/
def rfindDot (s : List Char) : Option Nat := rfindDotAux s 0 none

/-- Split a character list at every `'/'`, like Python's `str.split('/')`. -/
def splitSlash (acc : List Char) : List Char → List String
  | [] => [String.mk acc.reverse]
  | '/' :: rest => String.mk acc.reverse :: splitSlash [] rest
  | c :: rest => splitSlash (c :: acc) rest

/-- Python `pathlib`: the final path component (`Path(p).name`), for the plain
relative file paths the script is invoked with — split on `/` and take the last
nonempty component (no drive, root or `..` normalisation). -/
def pathName (p : String) : String :=
  match ((splitSlash [] p.data).filter (fun s => decide (s ≠ ""))).getLast? with
  | some n => n
  | none => ""

/-- Python `pathlib` `Path(p).stem` (line 29): the final component without its
last suffix; the suffix is dropped only when the last dot is neither the first
nor past the second-to-last character of the name. -/
def pathStem (p : String) : String :=
  let name := pathName p
  match rfindDot name.data with
  | some i => if 0 < i ∧ i < name.length - 1 then String.mk (name.data.take i) else name
  | none => name

/-- Python `pathlib`'s `/` on the plain relative paths used here (line 32):
empty right operands are dropped and an absolute right operand replaces the
left one. -/
def pathJoin (a b : String) : String :=
  if b = "" then a else if b.data.head? = some '/' then b else a ++ "/" ++ b

/-- Lines 25-32: resolve which general file or files to sync to. -/
def get_general_paths (pricing_path : String) (general_path_arg : Option String) :
    List String :=
  match general_path_arg with
  | some g => [g]
  | none =>
    if pathStem pricing_path = "openai" then
      ["general/openai.json", "general/open-ai.json"]
    else [pathJoin "general" (pathName pricing_path)]

/-- Process environment: the command-line arguments after the program name
(`sys.argv[1:]`) and the filesystem, mapping a path to its text when a file
exists there. -/
structure Env where
  args : List String
  files : String → Option String

/-- How a run of `main` ends. `exitUsage` is the usage message on stderr with
return value 1 (lines 36-38); `exitPricingMissing` is the `::error` annotated
message with return value 1 (lines 43-45); `uncaughtParseError` models
`json.loads` raising `JSONDecodeError` out of `main` (line 48 or line 57),
which makes the interpreter exit with code 1 after any writes already done;
`ok` is the normal return 0 (line 104). Each write is a path paired with the
new text passed to `write_text` (line 98). -/
inductive MainOutcome where
  | exitUsage
  | exitPricingMissing
  | uncaughtParseError (writesDone : List (String × String))
  | ok (writes : List (String × String))
deriving DecidableEq

/-- The process exit code for each outcome. -/
def exitCode : MainOutcome → Nat
  | .exitUsage => 1
  | .exitPricingMissing => 1
  | .uncaughtParseError _ => 1
  | .ok _ => 0

/-- Files written during the run. -/
def writesOf : MainOutcome → List (String × String)
  | .exitUsage => []
  | .exitPricingMissing => []
  | .uncaughtParseError ws => ws
  | .ok ws => ws

/-- Result of the loop over target paths: finished normally, or a general file
failed to parse (line 57 raising), in either case with the writes performed. -/
inductive LoopResult where
  | ok (writes : List (String × String))
  | raised (writes : List (String × String))
deriving DecidableEq

/-- Lines 51-102: one iteration per resolved target path. A missing file is an
informational skip (lines 52-54); an existing file is read and parsed (lines
56-57, a parse failure raising out of the loop); then `processTarget` decides
between the no-missing report, a warning skip, and the rewrite, whose text
becomes visible to later iterations through the filesystem. -/
def processPaths (parse : String → Option (List (String × Json)))
    (pricingModels : List String) :
    (String → Option String) → List String → LoopResult
  | _, [] => .ok []
  | files, path :: rest =>
    match files path with
    | none => processPaths parse pricingModels files rest
    | some content =>
      match parse content with
      | none => .raised []
      | some general =>
        match processTarget content.data general pricingModels with
        | .written c =>
          let newText := String.mk c
          match processPaths parse pricingModels
              (fun q => if q = path then some newText else files q) rest with
          | .ok ws => .ok ((path, newText) :: ws)
          | .raised ws => .raised ((path, newText) :: ws)
        | _ => processPaths parse pricingModels files rest

/-- Lines 35-104: `main`, parameterised by an abstract `json.loads` (`parse`,
`none` modelling a raised `JSONDecodeError`). No arguments is the usage error;
a nonexistent pricing file is the annotated error; otherwise the pricing file
is parsed (line 48, fatal on failure), the target paths resolved (line 47,
`sys.argv[2]` being the optional explicit general path) and each target
processed in turn; the run returns 0 (line 104). -/
def mainFn (parse : String → Option (List (String × Json))) (env : Env) : MainOutcome :=
  match env.args with
  | [] => .exitUsage
  | pricingPath :: rest =>
    match env.files pricingPath with
    | none => .exitPricingMissing
    | some pricingText =>
      match parse pricingText with
      | none => .uncaughtParseError []
      | some pricing =>
        match processPaths parse (modelKeys pricing) env.files
            (get_general_paths pricingPath rest.head?) with
        | .ok ws => .ok ws
        | .raised ws => .uncaughtParseError ws

/-! ### Helper lemmas: the diff engine at the level of key sets -/

theorem mem_missingModels (pm gm : List String) (k : String) :
    k ∈ missingModels pm gm ↔ k ∈ pm ∧ k ∉ gm ∧ k ∉ GENERAL_RESERVED := by
  unfold missingModels
  rw [List.mem_insertionSort, List.mem_dedup, List.mem_filter]
  simp

theorem mem_generalModels (general : List (String × Json)) (k : String) :
    k ∈ generalModels general ↔ k ∈ modelKeys general ∧ k ∉ GENERAL_RESERVED := by
  unfold generalModels
  rw [List.mem_filter]
  simp

/-! ### Helper lemmas: the backward scan and the splice -/

/-- The content has, at index `i`, a newline immediately followed by a closing
brace at `i + 1`, with only whitespace from `" \t\n\r"` after that brace: the
trailing shape the splice requires, `i` being the insertion point (the newline
immediately preceding the root closing brace). -/
def endsNLBraceAt (content : List Char) (i : Nat) : Prop :=
  content[i]? = some '\n' ∧ content[i + 1]? = some '\x7d' ∧
    ∀ j c, i + 1 < j → content[j]? = some c → trailWS c = true

/-- The content ends, apart from trailing `" \t\n\r"` whitespace, in a newline
immediately followed by a closing brace. -/
def endsNLBrace (content : List Char) : Prop := ∃ i, endsNLBraceAt content i

theorem reverse_decomp (content : List Char) :
    content = (content.reverse.dropWhile trailWS).reverse ++
      (content.reverse.takeWhile trailWS).reverse := by
  have h2 := congrArg List.reverse
    (List.takeWhile_append_dropWhile trailWS content.reverse)
  rw [List.reverse_append, List.reverse_reverse] at h2
  exact h2.symm

theorem getElem_concat_last (l₁ l₂ : List Char) (c : Char) (h : l₁.head? = some c) :
    (l₁.reverse ++ l₂)[l₁.length - 1]? = some c := by
  have hne : l₁ ≠ [] := by
    intro he
    rw [he] at h
    simp at h
  have hlen : 0 < l₁.length := List.length_pos.mpr hne
  rw [List.getElem?_append, if_pos (by rw [List.length_reverse]; omega),
    List.getElem?_reverse (by omega)]
  have h0 : l₁.length - 1 - (l₁.length - 1) = 0 := by omega
  rw [h0, ← List.head?_eq_getElem?]
  exact h

theorem getElem_rootClose (content : List Char) (c : Char)
    (h : (content.reverse.dropWhile trailWS).head? = some c) :
    content[(content.reverse.dropWhile trailWS).length - 1]? = some c := by
  have key := getElem_concat_last (content.reverse.dropWhile trailWS)
    (content.reverse.takeWhile trailWS).reverse c h
  rw [← reverse_decomp content] at key
  exact key

theorem trailing_ws_after (content : List Char) (j : Nat) (c : Char)
    (hj : (content.reverse.dropWhile trailWS).length ≤ j)
    (h : content[j]? = some c) : trailWS c = true := by
  rw [reverse_decomp content, List.getElem?_append,
    if_neg (by rw [List.length_reverse]; omega)] at h
  have hmem := List.getElem?_mem h
  rw [List.mem_reverse] at hmem
  exact List.mem_takeWhile_imp hmem

theorem spliceStep_written_spec (content entries out : List Char)
    (h : spliceStep content entries = .written out) :
    ∃ i, endsNLBraceAt content i ∧
      out = content.take i ++ ([',', '\n'] ++ entries ++ ['\n']) ++ content.drop i := by
  unfold spliceStep at h
  by_cases h1 : (content.reverse.dropWhile trailWS).head? = some '\x7d'
  · rw [if_pos h1] at h
    by_cases h2 : (content.reverse.dropWhile trailWS).length - 1 = 0
    · rw [if_pos h2] at h
      simp at h
    · rw [if_neg h2] at h
      by_cases h3 : content[(content.reverse.dropWhile trailWS).length - 1 - 1]? = some '\n'
      · rw [if_pos h3] at h
        simp only [SpliceOutcome.written.injEq] at h
        have hne : content.reverse.dropWhile trailWS ≠ [] := by
          intro he
          rw [he] at h1
          simp at h1
        have hlen : 2 ≤ (content.reverse.dropWhile trailWS).length := by
          have := List.length_pos.mpr hne
          omega
        refine ⟨(content.reverse.dropWhile trailWS).length - 1 - 1, ⟨h3, ?_, ?_⟩, h.symm⟩
        · have hidx : (content.reverse.dropWhile trailWS).length - 1 - 1 + 1 =
              (content.reverse.dropWhile trailWS).length - 1 := by omega
          rw [hidx]
          exact getElem_rootClose content _ h1
        · intro j c hj hc
          exact trailing_ws_after content j c (by omega) hc
      · rw [if_neg h3] at h
        simp at h
  · rw [if_neg h1] at h
    simp at h

theorem spliceStep_of_endsNLBraceAt (content entries : List Char) (i : Nat)
    (h : endsNLBraceAt content i) :
    spliceStep content entries = .written
      (content.take i ++ ([',', '\n'] ++ entries ++ ['\n']) ++ content.drop i) := by
  obtain ⟨h1, h2, h3⟩ := h
  have hi2 : i + 2 ≤ content.length := by
    have := (List.getElem?_eq_some_iff.mp h2).1
    omega
  have hwsdrop : ∀ c2 ∈ (content.drop (i + 2)).reverse, trailWS c2 = true := by
    intro c2 hc2
    rw [List.mem_reverse] at hc2
    obtain ⟨m, hm⟩ := List.mem_iff_getElem?.mp hc2
    rw [List.getElem?_drop] at hm
    exact h3 (i + 2 + m) c2 (by omega) hm
  have hdecomp : content.reverse =
      (content.drop (i + 2)).reverse ++ (content.take (i + 2)).reverse := by
    rw [← List.reverse_append, List.take_append_drop]
  have htakelen : (content.take (i + 2)).length = i + 2 := by
    rw [List.length_take]
    omega
  have htakehead : (content.take (i + 2)).reverse.head? = some '\x7d' := by
    rw [List.head?_eq_getElem?, List.getElem?_reverse (by rw [htakelen]; omega), htakelen]
    have hidx : i + 2 - 1 - 0 = i + 1 := by omega
    rw [hidx, List.getElem?_take, if_pos (by omega)]
    exact h2
  have hstripped : content.reverse.dropWhile trailWS = (content.take (i + 2)).reverse := by
    rw [hdecomp, List.dropWhile_append_of_pos hwsdrop]
    cases hcase : (content.take (i + 2)).reverse with
    | nil => rfl
    | cons c2 rest =>
      rw [hcase] at htakehead
      simp only [List.head?_cons, Option.some.injEq] at htakehead
      subst htakehead
      rw [List.dropWhile_cons, if_neg (by decide)]
  unfold spliceStep
  rw [hstripped, if_pos htakehead]
  have hlen2 : (content.take (i + 2)).reverse.length = i + 2 := by
    rw [List.length_reverse, htakelen]
  rw [hlen2, if_neg (by omega)]
  have hidx2 : i + 2 - 1 - 1 = i := by omega
  rw [hidx2, if_pos h1]

theorem spliceStep_written_iff (content entries : List Char) :
    (∃ out, spliceStep content entries = .written out) ↔ endsNLBrace content := by
  constructor
  · rintro ⟨out, h⟩
    obtain ⟨i, hi, _⟩ := spliceStep_written_spec content entries out h
    exact ⟨i, hi⟩
  · rintro ⟨i, hi⟩
    exact ⟨_, spliceStep_of_endsNLBraceAt content entries i hi⟩

/-! ### Helper lemmas: the written outcome of one target run -/

theorem processTarget_written (content : List Char) (general : List (String × Json))
    (pricing : List String) (out : List Char)
    (h : processTarget content general pricing = .written out) :
    missingModels pricing (generalModels general) ≠ [] ∧
    spliceStep content (newEntriesStr (detectIndent content)
      (missingModels pricing (generalModels general))) = .written out := by
  by_cases hm : missingModels pricing (generalModels general) = []
  · have hno : processTarget content general pricing = .noMissing := by
      simp only [processTarget, if_pos hm]
    rw [h] at hno
    cases hno
  · refine ⟨hm, ?_⟩
    cases hsp : spliceStep content (newEntriesStr (detectIndent content)
        (missingModels pricing (generalModels general))) with
    | warnNoBrace =>
      have hpt : processTarget content general pricing = .warnNoBrace := by
        simp only [processTarget, if_neg hm, hsp]
      rw [h] at hpt
      cases hpt
    | warnBadFormat =>
      have hpt : processTarget content general pricing = .warnBadFormat := by
        simp only [processTarget, if_neg hm, hsp]
      rw [h] at hpt
      cases hpt
    | written c =>
      have hpt : processTarget content general pricing = .written c := by
        simp only [processTarget, if_neg hm, hsp]
      rw [h] at hpt
      injection hpt with h2
      rw [h2]

theorem intercalate_cons_cons (sep a b : List Char) (t : List (List Char)) :
    List.intercalate sep (a :: b :: t) = a ++ sep ++ List.intercalate sep (b :: t) := by
  simp only [List.intercalate, List.intersperse_cons₂, List.flatten_cons]
  simp [List.append_assoc]

theorem intercalate_mem_decomp (sep : List Char) (l : List (List Char)) (x : List Char)
    (hx : x ∈ l) : ∃ pre post, List.intercalate sep l = pre ++ x ++ post := by
  induction l with
  | nil => cases hx
  | cons a t ih =>
    rcases List.mem_cons.mp hx with rfl | hxt
    · cases t with
      | nil => exact ⟨[], [], by simp [List.intercalate]⟩
      | cons b t2 =>
        refine ⟨[], sep ++ List.intercalate sep (b :: t2), ?_⟩
        rw [intercalate_cons_cons]
        simp [List.append_assoc]
    · obtain ⟨pre, post, hp⟩ := ih hxt
      cases t with
      | nil => cases hxt
      | cons b t2 =>
        refine ⟨a ++ sep ++ pre, post, ?_⟩
        rw [intercalate_cons_cons, hp]
        simp [List.append_assoc]

theorem entryFor_decomp (indent : List Char) (k : String) :
    entryFor indent k = indent ++ ('"' :: (k.data ++ ['"', ':', ' ', '\x7b'])) ++
      ('\n' :: List.intercalate ['\n'] ((stub_lines.drop 1).map (fun l => indent ++ l))) := by
  unfold entryFor
  simp [List.append_assoc]

/-! ### Helper lemmas: indent detection and the loop over targets -/

theorem takeWhile_quote_eq_ws (l : List Char) (h : quotedKeyLine l = true) :
    l.takeWhile (fun c => c ≠ '"') = l.takeWhile pyWS := by
  induction l with
  | nil => simp [quotedKeyLine] at h
  | cons c rest ih =>
    by_cases hp : pyWS c = true
    · have hq : quotedKeyLine rest = true := by
        unfold quotedKeyLine at h ⊢
        rwa [List.dropWhile_cons, if_pos hp] at h
      have hcq : c ≠ '"' := by
        intro he
        subst he
        exact absurd hp (by decide)
      rw [List.takeWhile_cons, List.takeWhile_cons, if_pos (by simpa using hcq),
        if_pos hp, ih hq]
    · have hd : (c :: rest).dropWhile pyWS = c :: rest := by
        rw [List.dropWhile_cons, if_neg hp]
      unfold quotedKeyLine at h
      rw [hd] at h
      simp only [List.head?_cons, Bool.and_eq_true, beq_iff_eq, Option.some.injEq] at h
      obtain ⟨hc, -⟩ := h
      subst hc
      rw [List.takeWhile_cons, List.takeWhile_cons, if_neg (by simp),
        if_neg (by decide)]

theorem processPaths_total_ok (parse : String → Option (List (String × Json)))
    (pm : List String) (hp : ∀ s, (parse s).isSome = true) :
    ∀ paths files, ∃ ws, processPaths parse pm files paths = .ok ws := by
  intro paths
  induction paths with
  | nil => exact fun files => ⟨[], rfl⟩
  | cons path rest ih =>
    intro files
    cases hf : files path with
    | none =>
      obtain ⟨ws, hws⟩ := ih files
      exact ⟨ws, by simp only [processPaths, hf]; exact hws⟩
    | some content =>
      cases hps : parse content with
      | none =>
        have hsome := hp content
        rw [hps] at hsome
        simp at hsome
      | some general =>
        cases hpt : processTarget content.data general pm with
        | written c =>
          obtain ⟨ws, hws⟩ := ih (fun q => if q = path then some (String.mk c) else files q)
          exact ⟨(path, String.mk c) :: ws, by simp only [processPaths, hf, hps, hpt, hws]⟩
        | noMissing =>
          obtain ⟨ws, hws⟩ := ih files
          exact ⟨ws, by simp only [processPaths, hf, hps, hpt]; exact hws⟩
        | warnNoBrace =>
          obtain ⟨ws, hws⟩ := ih files
          exact ⟨ws, by simp only [processPaths, hf, hps, hpt]; exact hws⟩
        | warnBadFormat =>
          obtain ⟨ws, hws⟩ := ih files
          exact ⟨ws, by simp only [processPaths, hf, hps, hpt]; exact hws⟩

/-! ### Concrete fixtures used by witnesses -/

/-- A typical general file: reserved key, one model, closing shape `"}\n}"`. -/
def wContent : String :=
  "\x7b\n  \"name\": \"X\",\n  \"gpt-4\": \x7b\n    \"a\": 1\n  \x7d\n\x7d"

/-- The parse of `wContent`. -/
def wGeneral : List (String × Json) :=
  [("name", .str "X"), ("gpt-4", .obj [("a", .num 1)])]

/-- Pricing keys for the fixture: one already present, one missing. -/
def wPricing : List String := ["gpt-5", "gpt-4"]

/-! ### The claims -/

/-- The empty-object general file: valid JSON that passes both trailing-shape
checks of the splice, used by the counterexamples for C1, C4 and C10. -/
def emptyObjText : String := "\x7b\n\x7d"

set_option maxRecDepth 40000 in
/-- C1 counterexample: the general file is the valid empty object, which exists
and passes the trailing-shape check, and pricing holds the non-reserved key
"b" — so the claim asserts "b" is in the rewritten file's top-level key set.
The tool does rewrite the file, but the written text begins with an opening
brace followed by a comma, which `json.loads` rejects (it requires a quoted
key or a closing brace there): the rewritten file is not a JSON object and has
no top-level key set at all, so no key set containing "b" exists. -/
theorem c1_counterexample :
    isWritten (processTarget emptyObjText.data [] ["b"]) = true ∧
    "b" ∉ GENERAL_RESERVED ∧
    (writtenOf (processTarget emptyObjText.data [] ["b"])).take 2 = ['\x7b', ','] ∧
    jsonObjShapeOk (writtenOf (processTarget emptyObjText.data [] ["b"])) = false := by
  refine ⟨by decide, by decide, by decide, by decide⟩

/-- C1 (amended): after a run in which the target general file exists and
passes the trailing-shape check, every pricing key that is not reserved and is
absent from the parsed general document has its stub entry textually inserted:
the written content contains the rendered member header `"k": {` verbatim.
Set-level presence in the file's top-level key set additionally requires the
rewritten text to parse as a JSON object, which the tool does not ensure (see
the counterexample). -/
theorem c1_missing_keys_inserted_textually (content : List Char)
    (general : List (String × Json)) (pricing : List String) (k : String)
    (out : List Char)
    (hrun : processTarget content general pricing = .written out)
    (hk : k ∈ pricing) (hg : k ∉ modelKeys general) (hr : k ∉ GENERAL_RESERVED) :
    ∃ pre post, out = pre ++ ('"' :: (k.data ++ ['"', ':', ' ', '\x7b'])) ++ post := by
  obtain ⟨hm, hsp⟩ := processTarget_written content general pricing out hrun
  have hkm : k ∈ missingModels pricing (generalModels general) :=
    (mem_missingModels _ _ _).mpr
      ⟨hk, fun hgm => hg ((mem_generalModels _ _).mp hgm).1, hr⟩
  obtain ⟨i, _, hout⟩ := spliceStep_written_spec content
    (newEntriesStr (detectIndent content)
      (missingModels pricing (generalModels general))) out hsp
  obtain ⟨pre1, post1, hdec⟩ := intercalate_mem_decomp [',', '\n']
    ((missingModels pricing (generalModels general)).map (entryFor (detectIndent content)))
    (entryFor (detectIndent content) k) (List.mem_map_of_mem _ hkm)
  refine ⟨content.take i ++ [',', '\n'] ++ pre1 ++ detectIndent content,
    ('\n' :: List.intercalate ['\n'] ((stub_lines.drop 1).map
      (fun l => detectIndent content ++ l))) ++ post1 ++ ['\n'] ++ content.drop i, ?_⟩
  rw [hout]
  unfold newEntriesStr at *
  rw [hdec, entryFor_decomp]
  simp [List.append_assoc]

set_option maxRecDepth 40000 in
/-- Witness for the amended C1: at the fixture run the missing pricing key
"gpt-5" is textually inserted into the written content. -/
theorem c1_witness :
    processTarget wContent.data wGeneral wPricing =
      TargetResult.written (writtenOf (processTarget wContent.data wGeneral wPricing)) ∧
    "gpt-5" ∈ wPricing ∧ "gpt-5" ∉ modelKeys wGeneral ∧ "gpt-5" ∉ GENERAL_RESERVED ∧
    (∃ pre post, writtenOf (processTarget wContent.data wGeneral wPricing) =
      pre ++ ('"' :: ("gpt-5".data ++ ['"', ':', ' ', '\x7b'])) ++ post) :=
  ⟨by decide, by decide, by decide, by decide,
    c1_missing_keys_inserted_textually wContent.data wGeneral wPricing "gpt-5"
      (writtenOf (processTarget wContent.data wGeneral wPricing))
      (by decide) (by decide) (by decide) (by decide)⟩

/-- C3: whenever a target file is rewritten, the new text is exactly the
original text up to the insertion point (the newline immediately preceding the
root closing brace, witnessed by `endsNLBraceAt` at the insertion index),
then the inserted block, then the original tail unchanged; in particular every
byte before the insertion point is unchanged and at the same position. -/
theorem c3_rewrite_preserves_bytes (content entries out : List Char)
    (h : spliceStep content entries = .written out) :
    ∃ i, endsNLBraceAt content i ∧
      out = content.take i ++ ([',', '\n'] ++ entries ++ ['\n']) ++ content.drop i ∧
      ∀ j, j < i → out[j]? = content[j]? := by
  obtain ⟨i, hi, hout⟩ := spliceStep_written_spec content entries out h
  refine ⟨i, hi, hout, ?_⟩
  intro j hj
  have hil : i < content.length := (List.getElem?_eq_some_iff.mp hi.1).1
  subst hout
  rw [List.getElem?_append, if_pos (by rw [List.length_append, List.length_take]; omega),
    List.getElem?_append, if_pos (by rw [List.length_take]; omega),
    List.getElem?_take, if_pos hj]

/-- A three-character general file accepted by the splice. -/
def c3content : String := "\x7b\n\x7d"

/-- Witness for C3 at a concrete splice: content `"{\n}"` with entry text `"E"`
produces `"{,\nE\n\n}"`, which the theorem decomposes around insertion point 1. -/
theorem c3_witness :
    spliceStep c3content.data ['E'] = SpliceOutcome.written "\x7b,\nE\n\n\x7d".data ∧
    (∃ i, endsNLBraceAt c3content.data i ∧
      "\x7b,\nE\n\n\x7d".data = c3content.data.take i ++
        ([',', '\n'] ++ ['E'] ++ ['\n']) ++ c3content.data.drop i ∧
      ∀ j, j < i → "\x7b,\nE\n\n\x7d".data[j]? = c3content.data[j]?) :=
  ⟨by decide, c3_rewrite_preserves_bytes c3content.data ['E'] _ (by decide)⟩

/-- The pricing text for the C4 counterexample scenario. -/
def c4pricingText : String := "\x7b\"b\": 1\x7d"

/-- The text the first run of the C4 scenario writes to `general/p.json`: the
empty-object general file spliced with the stub for "b". Its second character
is a comma, so it is not valid JSON. -/
def c4written : String := "\x7b,\n  \"b\": \x7b\n    \"params\": [\n      \x7b\n        \"key\": \"max_tokens\",\n        \"maxValue\": 64000\n      \x7d\n    ],\n    \"type\": \x7b\n      \"primary\": \"chat\",\n      \"supported\": [\n        \"image\",\n        \"pdf\",\n        \"doc\",\n        \"tools\"\n      ]\n    \x7d,\n    \"removeParams\": [\n      \"top_p\"\n    ]\n  \x7d\n\n\x7d"

/-- Models `json.loads` on the strings the C4 scenario reads: the pricing text
parses to the object with the single key "b", the empty-object general text
parses to the empty object, and everything else — in particular the corrupted
text the first run writes, which fails even the object-shape necessary
condition — raises. -/
def c4parse : String → Option (List (String × Json)) := fun s =>
  if s = c4pricingText then some [("b", Json.num 1)]
  else if s = emptyObjText then some [] else none

/-- The C4 scenario's filesystem before the first run. -/
def c4env1 : Env :=
  Env.mk ["p.json"] (fun q =>
    if q = "p.json" then some c4pricingText
    else if q = "general/p.json" then some emptyObjText else none)

/-- The C4 scenario's filesystem after the first run: the general file now
holds the corrupted text. -/
def c4env2 : Env :=
  Env.mk ["p.json"] (fun q =>
    if q = "p.json" then some c4pricingText
    else if q = "general/p.json" then some c4written else none)

set_option maxRecDepth 100000 in
/-- C4 counterexample: the first run on the empty-object general file succeeds
(exit 0) and rewrites `general/p.json` with text that is not a JSON object (it
begins with a brace followed by a comma). The second run with the same
arguments then raises in `json.loads` at line 57 and exits nonzero, instead of
finding no missing keys and leaving the files alone: the runs are not
idempotent when the first run corrupts the target. -/
theorem c4_counterexample :
    mainFn c4parse c4env1 = MainOutcome.ok [("general/p.json", c4written)] ∧
    jsonObjShapeOk c4written.data = false ∧
    mainFn c4parse c4env2 = MainOutcome.uncaughtParseError [] ∧
    exitCode (mainFn c4parse c4env2) = 1 := by
  refine ⟨by decide, by decide, by decide, by decide⟩

/-- C4 (amended): a second run changes nothing provided the rewritten general
file still parses and its document contains every non-reserved pricing key —
the intended outcome of an uncorrupted first run. Then the diff engine finds
no missing keys and the target processing stops at the no-missing report: no
rewrite, no duplicate stub insertion. (When the first run corrupts the target,
the second run instead aborts in `json.loads` — see the counterexample.) -/
theorem c4_second_run_no_change (doc2 : List (String × Json))
    (pricing : List String) (content2 : List Char)
    (h : ∀ k, k ∈ pricing → k ∉ GENERAL_RESERVED → k ∈ modelKeys doc2) :
    missingModels pricing (generalModels doc2) = [] ∧
    processTarget content2 doc2 pricing = .noMissing := by
  have hmiss : missingModels pricing (generalModels doc2) = [] := by
    rw [List.eq_nil_iff_forall_not_mem]
    intro k hk
    rw [mem_missingModels] at hk
    exact hk.2.1 ((mem_generalModels _ _).mpr ⟨h k hk.1 hk.2.2, hk.2.2⟩)
  exact ⟨hmiss, by simp [processTarget, hmiss]⟩

/-- Witness for the amended C4: a document holding the synced key "b" makes the
second run a no-op. -/
theorem c4_witness :
    (∀ k, k ∈ (["b"] : List String) → k ∉ GENERAL_RESERVED →
      k ∈ modelKeys [("b", MINIMAL_STUB)]) ∧
    processTarget emptyObjText.data [("b", MINIMAL_STUB)] ["b"] =
      TargetResult.noMissing :=
  ⟨by decide,
   (c4_second_run_no_change [("b", MINIMAL_STUB)] ["b"] emptyObjText.data (by decide)).2⟩

/-- The C5 counterexample content: a general file whose last three characters
are `'1'`, `'\n'`, `'}'` — a single newline immediately before the root brace,
not the claimed `"...}\n\n}"` two-newline shape. -/
def c5content : String := "\x7b\n\"a\": 1\n\x7d"

/-- Its parse. -/
def c5general : List (String × Json) := [("a", .num 1)]

/-- A pricing key set making one model missing. -/
def c5pricing : List String := ["b"]

set_option maxRecDepth 40000 in
/-- C5 counterexample: the claim says a file is skipped with a warning whenever
the character immediately preceding the newline before the root closing brace
is not itself a newline (i.e. whenever the file does not end in the
`"...}\n\n}"` shape). Here that character is `'1'`, so the claim predicts a
warning skip — but the tool does not skip: it rewrites the file. -/
theorem c5_counterexample :
    c5content.data[c5content.data.length - 1]? = some '\x7d' ∧
    c5content.data[c5content.data.length - 2]? = some '\n' ∧
    c5content.data[c5content.data.length - 3]? = some '1' ∧
    missingModels c5pricing (generalModels c5general) ≠ [] ∧
    isWarnSkip (processTarget c5content.data c5general c5pricing) = false ∧
    isWritten (processTarget c5content.data c5general c5pricing) = true := by
  refine ⟨by decide, by decide, by decide, by decide, by decide, by decide⟩

/-- C5 (amended): given that the diff engine found missing models, a target is
skipped with a warning and left untouched exactly when its content does not
end — apart from trailing whitespace — in a newline immediately followed by
the root closing brace. A single newline immediately before the brace
suffices; the claimed two-newline `"...}\n\n}"` shape is not required. -/
theorem c5_skip_condition (content : List Char) (general : List (String × Json))
    (pricing : List String)
    (hm : missingModels pricing (generalModels general) ≠ []) :
    isWarnSkip (processTarget content general pricing) = true ↔
      ¬ endsNLBrace content := by
  have hsplit : ∀ r, processTarget content general pricing = r →
      (spliceStep content (newEntriesStr (detectIndent content)
        (missingModels pricing (generalModels general))) = .warnNoBrace → r = .warnNoBrace) ∧
      (spliceStep content (newEntriesStr (detectIndent content)
        (missingModels pricing (generalModels general))) = .warnBadFormat → r = .warnBadFormat) ∧
      (∀ c, spliceStep content (newEntriesStr (detectIndent content)
        (missingModels pricing (generalModels general))) = .written c → r = .written c) := by
    intro r hr
    refine ⟨?_, ?_, ?_⟩ <;>
      first
      | (intro hs
         rw [← hr]
         simp only [processTarget, if_neg hm, hs])
      | (intro c hs
         rw [← hr]
         simp only [processTarget, if_neg hm, hs])
  obtain ⟨h1, h2, h3⟩ := hsplit (processTarget content general pricing) rfl
  cases hsp : spliceStep content (newEntriesStr (detectIndent content)
      (missingModels pricing (generalModels general))) with
  | warnNoBrace =>
    rw [h1 hsp]
    constructor
    · intro _ hend
      obtain ⟨out, hw⟩ := (spliceStep_written_iff content _).mpr hend
      rw [hsp] at hw
      cases hw
    · intro _
      rfl
  | warnBadFormat =>
    rw [h2 hsp]
    constructor
    · intro _ hend
      obtain ⟨out, hw⟩ := (spliceStep_written_iff content _).mpr hend
      rw [hsp] at hw
      cases hw
    · intro _
      rfl
  | written c =>
    rw [h3 c hsp]
    have hend : endsNLBrace content := (spliceStep_written_iff content _).mp ⟨c, hsp⟩
    constructor
    · intro hfalse
      cases hfalse
    · intro hne
      exact absurd hend hne

/-- A minified general file (no newline before the root brace at all). -/
def c5minified : String := "\x7b\"a\":1\x7d"

set_option maxRecDepth 40000 in
/-- Witness for the amended C5 at the minified file: missing models exist and
the skip-with-warning outcome is equivalent to the file not ending in
newline-then-brace. -/
theorem c5_witness :
    missingModels c5pricing (generalModels c5general) ≠ [] ∧
    (isWarnSkip (processTarget c5minified.data c5general c5pricing) = true ↔
      ¬ endsNLBrace c5minified.data) :=
  ⟨by decide, c5_skip_condition c5minified.data c5general c5pricing (by decide)⟩

/-- C6: the diff engine's output is exactly the list of model identifiers
present in pricing, absent from general, and not reserved, sorted in ascending
lexicographic order (String's linear order compares code points
lexicographically, as Python's `sorted` does) and without duplicates — which
determines the list uniquely. The embedding is purely functional, so the
inputs cannot be mutated: the characterisation is stated against the unchanged
input lists. -/
theorem c6_diff_engine (pricing : List String) (general : List (String × Json)) :
    (missingModels pricing (generalModels general)).Sorted (fun a b : String => a ≤ b) ∧
    (missingModels pricing (generalModels general)).Nodup ∧
    ∀ k, k ∈ missingModels pricing (generalModels general) ↔
      k ∈ pricing ∧ k ∉ modelKeys general ∧ k ∉ GENERAL_RESERVED := by
  refine ⟨List.sorted_insertionSort _ _, ?_, ?_⟩
  · unfold missingModels
    exact ((List.perm_insertionSort _ _).nodup_iff).mpr (List.nodup_dedup _)
  · intro k
    rw [mem_missingModels]
    constructor
    · rintro ⟨h1, h2, h3⟩
      exact ⟨h1, fun hk => h2 ((mem_generalModels _ _).mpr ⟨hk, h3⟩), h3⟩
    · rintro ⟨h1, h2, h3⟩
      exact ⟨h1, fun hg => h2 ((mem_generalModels _ _).mp hg).1, h3⟩

/-- C7: the path resolver returns the explicit general path as single target
when given; otherwise `general/<pricing-file-name>` (via the path join, which
for the nonempty relative names arising here is exactly the string
`"general/" ++ name`), except that a pricing file with stem "openai" yields
the two targets `general/openai.json` and `general/open-ai.json`. -/
theorem c7_path_resolution (p g b : String) :
    get_general_paths p (some g) = [g] ∧
    (pathStem p = "openai" →
      get_general_paths p none = ["general/openai.json", "general/open-ai.json"]) ∧
    (pathStem p ≠ "openai" →
      get_general_paths p none = [pathJoin "general" (pathName p)]) ∧
    (b ≠ "" → b.data.head? ≠ some '/' → pathJoin "general" b = "general/" ++ b) := by
  refine ⟨rfl, ?_, ?_, ?_⟩
  · intro h
    unfold get_general_paths
    rw [if_pos h]
  · intro h
    unfold get_general_paths
    rw [if_neg h]
  · intro h1 h2
    unfold pathJoin
    rw [if_neg h1, if_neg h2, show "general" ++ "/" = "general/" from rfl]

/-- Witness for C7: the openai special case, the derived default, and the
explicit-argument case, all at concrete paths. -/
theorem c7_witness :
    pathStem "pricing/openai.json" = "openai" ∧
    get_general_paths "pricing/openai.json" none =
      ["general/openai.json", "general/open-ai.json"] ∧
    pathStem "pricing/google.json" ≠ "openai" ∧
    get_general_paths "pricing/google.json" none = ["general/google.json"] ∧
    get_general_paths "pricing/google.json" (some "explicit.json") = ["explicit.json"] :=
  ⟨by decide,
   (c7_path_resolution "pricing/openai.json" "x" "y").2.1 (by decide),
   by decide,
   by
     rw [(c7_path_resolution "pricing/google.json" "x" "y").2.2.1 (by decide)]
     decide,
   (c7_path_resolution "pricing/google.json" "explicit.json" "y").1⟩

/-- A 4-space-indented general file for the C8 scenario. -/
def ex4 : String :=
  "\x7b\n    \"name\": \"X\",\n    \"gpt-4\": \x7b\n        \"a\": 1\n    \x7d\n\x7d"

set_option maxRecDepth 40000 in
/-- C8: the indentation unit is the leading whitespace of the first line whose
stripped form starts with a double quote and contains a colon, two spaces when
no such line exists; and for the concrete 4-space-indented file `ex4` the
detected unit is four spaces and every line of the newly rendered stub entries
starts with a 4-space indent, not the 2-space fallback. -/
theorem c8_indent_detection (content : List Char) :
    (∀ l, (splitlines content).find? quotedKeyLine = some l →
      detectIndent content = l.takeWhile pyWS) ∧
    ((splitlines content).find? quotedKeyLine = none →
      detectIndent content = [' ', ' ']) ∧
    detectIndent ex4.data = [' ', ' ', ' ', ' '] ∧
    (splitlines (newEntriesStr (detectIndent ex4.data) ["gpt-5"])).all
      (fun l => l.take 4 = [' ', ' ', ' ', ' ']) = true := by
  refine ⟨?_, ?_, by decide, by decide⟩
  · intro l hl
    unfold detectIndent
    rw [hl]
    exact takeWhile_quote_eq_ws l (List.find?_some hl)
  · intro hn
    unfold detectIndent
    rw [hn]

set_option maxRecDepth 40000 in
/-- Witness for C8: at the fixture file the first quoted-key line is
`  "name": "X",` and the detected indent is its leading whitespace. -/
theorem c8_witness :
    (splitlines wContent.data).find? quotedKeyLine = some "  \"name\": \"X\",".data ∧
    detectIndent wContent.data = "  \"name\": \"X\",".data.takeWhile pyWS :=
  ⟨by decide,
   (c8_indent_detection wContent.data).1 "  \"name\": \"X\",".data (by decide)⟩

/-- Models `json.loads` rejecting the text `"{"`, the only content this environment
holds (a bare `"{"` raises `JSONDecodeError`). -/
def c9badparse : String → Option (List (String × Json)) := fun _ => none

/-- An environment whose single argument names an existing pricing file whose
content `"{"` is not valid JSON. -/
def c9envD : Env :=
  Env.mk ["p.json"] (fun q => if q = "p.json" then some "\x7b" else none)

/-- C9 counterexample: the claim says the process exits with code 0 in every
case other than missing arguments or a nonexistent pricing file. Here an
argument is present and the pricing file exists, yet the run ends with exit
code 1: `json.loads` raises on the invalid pricing JSON (line 48) and the
uncaught exception terminates the interpreter with a nonzero code. -/
theorem c9_counterexample :
    c9envD.args ≠ [] ∧ (c9envD.files "p.json").isSome = true ∧
    exitCode (mainFn c9badparse c9envD) = 1 := by
  refine ⟨by decide, by decide, by decide⟩

/-- C9 (amended): with no arguments the run is the usage error with exit code
1; with arguments but a nonexistent pricing file it is the annotated error
with exit code 1 and no files written; and whenever every `json.loads` call
succeeds the run exits with code 0, even when targets were skipped. (As
stated, the claim fails only on unhandled JSON parse errors, which exit
nonzero — see the counterexample.) -/
theorem c9_exit_codes (parse : String → Option (List (String × Json))) (env : Env)
    (hp : ∀ s, (parse s).isSome = true) :
    (env.args = [] → mainFn parse env = .exitUsage ∧ exitCode (mainFn parse env) = 1) ∧
    (∀ a r, env.args = a :: r → env.files a = none →
      mainFn parse env = .exitPricingMissing ∧ exitCode (mainFn parse env) = 1 ∧
      writesOf (mainFn parse env) = []) ∧
    (∀ a r, env.args = a :: r → (env.files a).isSome = true →
      exitCode (mainFn parse env) = 0) := by
  refine ⟨?_, ?_, ?_⟩
  · intro h
    have hm : mainFn parse env = .exitUsage := by
      simp only [mainFn, h]
    exact ⟨hm, by rw [hm]; rfl⟩

  · intro a r h hf
    have hm : mainFn parse env = .exitPricingMissing := by
      simp only [mainFn, h, hf]
    exact ⟨hm, by rw [hm]; rfl, by rw [hm]; rfl⟩
  · intro a r h hs
    cases hf : env.files a with
    | none =>
      rw [hf] at hs
      simp at hs
    | some content =>
      cases hps : parse content with
      | none =>
        have hsome := hp content
        rw [hps] at hsome
        simp at hsome
      | some pricing =>
        obtain ⟨ws, hws⟩ := processPaths_total_ok parse (modelKeys pricing) hp
          (get_general_paths a r.head?) env.files
        have hm : mainFn parse env = .ok ws := by
          simp only [mainFn, h, hf, hps, hws]
        rw [hm]
        rfl

/-- A total parser for the C9 witness. -/
def c9wparse : String → Option (List (String × Json)) := fun _ => some []

/-- C9 witness environment: no arguments. -/
def c9envA : Env := Env.mk [] (fun _ => none)

/-- C9 witness environment: an argument naming a nonexistent pricing file. -/
def c9envB : Env := Env.mk ["p.json"] (fun _ => none)

/-- C9 witness environment: an argument naming an existing pricing file. -/
def c9envC : Env :=
  Env.mk ["p.json"] (fun q => if q = "p.json" then some "x" else none)

/-- Witness for the amended C9: the three cases at concrete environments. -/
theorem c9_witness :
    mainFn c9wparse c9envA = MainOutcome.exitUsage ∧
    mainFn c9wparse c9envB = MainOutcome.exitPricingMissing ∧
    exitCode (mainFn c9wparse c9envC) = 0 :=
  ⟨((c9_exit_codes c9wparse c9envA (fun s => rfl)).1 rfl).1,
   ((c9_exit_codes c9wparse c9envB (fun s => rfl)).2.1 "p.json" [] rfl rfl).1,
   (c9_exit_codes c9wparse c9envC (fun s => rfl)).2.2 "p.json" [] rfl (by decide)⟩

set_option maxRecDepth 40000 in
/-- C10 counterexample: on the empty-object general file (old key set empty,
missing models `["b"]`) the splice "succeeds" and the file is rewritten, but
the written text is not a JSON object (it begins with a brace followed by a
comma, failing the object-shape condition `json.loads` requires), so the
written file has no top-level key set — in particular no key set equal to the
old keys together with the missing models. -/
theorem c10_counterexample :
    isWritten (processTarget emptyObjText.data [] ["b"]) = true ∧
    missingModels ["b"] (generalModels []) = ["b"] ∧
    jsonObjShapeOk (writtenOf (processTarget emptyObjText.data [] ["b"])) = false := by
  refine ⟨by decide, by decide, by decide⟩

/-- C10 (amended): every rewrite is insertion-only at the byte level: the new
text is the old text with one block inserted at the insertion point (the
newline immediately preceding the root closing brace), and the block is
exactly a comma, a newline, the rendered stub entries for the computed missing
pricing models in their sorted order, and a newline — no byte of the original
file is removed or changed. The set-level reading (key set afterwards = old
keys together with the missing models, old values untouched) additionally
requires the rewritten text to parse, which the tool does not ensure — see the
counterexample. -/
theorem c10_insertion_only (content : List Char) (general : List (String × Json))
    (pricing : List String) (out : List Char)
    (hrun : processTarget content general pricing = .written out) :
    ∃ i, endsNLBraceAt content i ∧
      out = content.take i ++ ([',', '\n'] ++
        newEntriesStr (detectIndent content)
          (missingModels pricing (generalModels general)) ++ ['\n']) ++
        content.drop i := by
  obtain ⟨hm, hsp⟩ := processTarget_written content general pricing out hrun
  obtain ⟨i, hi, hout⟩ := spliceStep_written_spec content
    (newEntriesStr (detectIndent content)
      (missingModels pricing (generalModels general))) out hsp
  exact ⟨i, hi, hout⟩

set_option maxRecDepth 40000 in
/-- Witness for the amended C10: the fixture run decomposes as original bytes
around the inserted block of rendered missing entries. -/
theorem c10_witness :
    processTarget wContent.data wGeneral wPricing =
      TargetResult.written (writtenOf (processTarget wContent.data wGeneral wPricing)) ∧
    (∃ i, endsNLBraceAt wContent.data i ∧
      writtenOf (processTarget wContent.data wGeneral wPricing) =
        wContent.data.take i ++ ([',', '\n'] ++
          newEntriesStr (detectIndent wContent.data)
            (missingModels wPricing (generalModels wGeneral)) ++ ['\n']) ++
        wContent.data.drop i) :=
  ⟨by decide,
   c10_insertion_only wContent.data wGeneral wPricing
     (writtenOf (processTarget wContent.data wGeneral wPricing)) (by decide)⟩

end SyncPricing
